import Mathlib

/-!
Shallow embedding of the deterministic fixed-point arithmetic library
(src/fixed-point.ts) and verification of its specification claims.

The library offers the same operation set over two storage backings:
a number backing (JS float64, valid for totalBits up to 32) and a BigInt
backing (arbitrary precision).  Scaled values are embedded as integers.
Where the number backing converts a widened BigInt intermediate back to a
float64 with Number(...), the embedding applies f64round, an exact model of
that conversion (round to nearest representable float64, ties to even) for
magnitudes below 2 to the 1024, which covers every value arising here.
JS BigInt division and remainder truncate toward zero (Int.tdiv, Int.tmod);
BigInt arithmetic right shift floors (Int.fdiv by a power of two).

The raw sine table file sin-lut-q16.ts is not part of src, so the table is a
parameter rawLut standing for SIN_LUT_Q16; the spec fixes only that it is a
fixed-length list of integer samples.  JS array reads outside the index range
yield undefined, and BigInt modulo by zero throws; both are modelled as none.
-/

namespace FixedPoint

/-- Raw constant from the source (line 94): two pi in Q16. -/
def TWO_PI_Q16 : ℤ := 411775

/-- Raw constant from the source (line 96): pi over two in Q16. -/
def PI_HALF_Q16 : ℤ := 102944

/-- Smallest representable step in scaled units (source: EPSILON = 1). -/
def EPSILON : ℤ := 1

/-- Scale factor: ONE = 2 to the fractionBits. -/
def ONE (f : ℕ) : ℤ := 2 ^ f

/-- Largest representable scaled value for a totalBits wide format. -/
def MAX (t : ℕ) : ℤ := 2 ^ (t - 1) - 1

/-- Smallest representable scaled value for a totalBits wide format. -/
def MIN (t : ℕ) : ℤ := -(2 ^ (t - 1))

/-- The representable range of a format. -/
def InRange (t : ℕ) (v : ℤ) : Prop := MIN t ≤ v ∧ v ≤ MAX t

instance (t : ℕ) (v : ℤ) : Decidable (InRange t v) :=
  inferInstanceAs (Decidable (_ ∧ _))

/-- Mirrors wrapBigInt (lines 218-224): mask to the low totalBits bits (for a
JS BigInt the bitwise and with the mask is the nonnegative residue mod 2^t),
then subtract 2^t when the result reaches the sign bit.  wrapNumber
(lines 227-234) computes the same function on integral float64 values: for
totalBits = 32 the coercion value | 0 is the twos-complement truncation to
32 bits, and otherwise it defers to wrapBigInt. -/
def wrap (t : ℕ) (v : ℤ) : ℤ :=
  if 2 ^ (t - 1) ≤ v % 2 ^ t then v % 2 ^ t - 2 ^ t else v % 2 ^ t

/-- Fuel-bounded search for the smallest s with n < 2^(53+s). -/
def ulpExpAux (n : ℕ) : ℕ → ℕ → ℕ
  | 0, s => s
  | fuel + 1, s => if n < 2 ^ (53 + s) then s else ulpExpAux n fuel (s + 1)

/-- Smallest s with n < 2^(53+s); the fuel covers every float64 magnitude. -/
def ulpExp (n : ℕ) : ℕ := ulpExpAux n 2000 0

/-- Round a natural number to the nearest float64-representable integer,
ties to even: the unit in the last place of a value in [2^(52+s), 2^(53+s))
is 2^s. -/
def f64roundNat (n : ℕ) : ℕ :=
  if n < 2 ^ 53 then n
  else
    if 2 ^ (ulpExp n - 1) < n % 2 ^ ulpExp n ∨
        (n % 2 ^ ulpExp n = 2 ^ (ulpExp n - 1) ∧ n / 2 ^ ulpExp n % 2 = 1) then
      (n / 2 ^ ulpExp n + 1) * 2 ^ ulpExp n
    else n / 2 ^ ulpExp n * 2 ^ ulpExp n

/-- Exact model of the JS Number(bigint) conversion on magnitudes below
2^1024: round to the nearest float64, ties to even, symmetric in sign. -/
def f64round (x : ℤ) : ℤ :=
  if 0 ≤ x then (f64roundNat x.toNat : ℤ) else -(f64roundNat (-x).toNat : ℤ)

/-- Mirrors floorDiv (lines 122-127): floor division built from the
truncating BigInt quotient and remainder. -/
def floorDiv (a b : ℤ) : ℤ :=
  if a.tmod b = 0 then a.tdiv b else if a < 0 then a.tdiv b - 1 else a.tdiv b

/-- Denominator 10^(number of fractional digits) used by the parser; 1 when
the fractional part is empty (source line 170). -/
def parseDenom (fracLen : ℕ) : ℤ :=
  if fracLen = 0 then 1 else 10 ^ fracLen

/-- Arithmetic core of parseFixedPointString (lines 168-177), after the
string has been split into a sign, the value of the integer-part digits, the
value of the fracLen fractional digits.  scaledBase is the left shift by
fractionBits, half is the truncating halving of the denominator, and the
result is the floor division of sign * scaledBase + half by the
denominator. -/
def parseFixedCore (sign : ℤ) (intPart fracPart fracLen : ℕ) (fractionBits : ℕ) : ℤ :=
  floorDiv
    (sign * (((intPart : ℤ) * parseDenom fracLen + (fracPart : ℤ)) * 2 ^ fractionBits)
      + (parseDenom fracLen).tdiv 2)
    (parseDenom fracLen)

/-- Newton iteration loop of isqrt (lines 112-117): from a guess g compute
(g + n / g) >> 1 and continue while it decreases. -/
def isqrtIter (n g : ℕ) : ℕ :=
  if (g + n / g) / 2 < g then isqrtIter n ((g + n / g) / 2) else g
termination_by g
decreasing_by omega

/-- Mirrors isqrt (lines 110-119): inputs below 2 (including any negative
input) are returned unchanged, otherwise the Newton loop starts at n. -/
def isqrt (n : ℤ) : ℤ :=
  if n < 2 then n else (isqrtIter n.toNat n.toNat : ℤ)

/-- Mirrors scaleQ16 on the BigInt path (lines 239-243): shift the Q16 value
into the target fraction bits (left shift is exact multiplication, arithmetic
right shift floors), then wrap. -/
def bigScaleQ16 (f t : ℕ) (v : ℤ) : ℤ :=
  wrap t (if 16 ≤ f then v * 2 ^ (f - 16) else v.fdiv (2 ^ (16 - f)))

/-- Mirrors scaleQ16 on the number path (lines 246-249): as on the BigInt
path, but a shifted value passes through a Number(...) conversion before the
wrap; with no shift the value is used as is. -/
def numScaleQ16 (f t : ℕ) (v : ℤ) : ℤ :=
  wrap t (if 16 < f then f64round (v * 2 ^ (f - 16))
    else if f < 16 then f64round (v.fdiv (2 ^ (16 - f)))
    else v)

/-- Rescaled full-period constant on the BigInt path. -/
def bigTWO_PI (f t : ℕ) : ℤ := bigScaleQ16 f t TWO_PI_Q16

/-- Rescaled quarter-period constant on the BigInt path. -/
def bigPI_HALF (f t : ℕ) : ℤ := bigScaleQ16 f t PI_HALF_Q16

/-- Rescaled full-period constant on the number path. -/
def numTWO_PI (f t : ℕ) : ℤ := numScaleQ16 f t TWO_PI_Q16

/-- Rescaled quarter-period constant on the number path. -/
def numPI_HALF (f t : ℕ) : ℤ := numScaleQ16 f t PI_HALF_Q16

/-- JS array indexing: arr[i] is a stored value only for 0 ≤ i < length;
any other index reads undefined, modelled as none. -/
def lutLookup (lut : List ℤ) (i : ℤ) : Option ℤ :=
  if h : 0 ≤ i ∧ i.toNat < lut.length then some (lut.get ⟨i.toNat, h.2⟩) else none

/-- Table index computed by sin on both paths (lines 271-273 and 352-354):
normalize theta by the truncating remainder mod TWO_PI, add one period if
negative, then take the truncating quotient of t1 * LUT_SIZE by TWO_PI. -/
def sinIndex (TP : ℤ) (L : ℕ) (θ : ℤ) : ℤ :=
  ((if θ.tmod TP < 0 then θ.tmod TP + TP else θ.tmod TP) * (L : ℤ)).tdiv TP

/-- Mirrors sin on the BigInt path (lines 270-275): none is the RangeError
thrown by theta % 0n when the rescaled TWO_PI is zero (and by idx % 0n for an
empty table), or an out-of-bounds table read. -/
def bigSin (rawLut : List ℤ) (f t : ℕ) (θ : ℤ) : Option ℤ :=
  if bigTWO_PI f t = 0 then none
  else lutLookup (rawLut.map (bigScaleQ16 f t))
    ((sinIndex (bigTWO_PI f t) rawLut.length θ).tmod (rawLut.length : ℤ))

/-- Mirrors cos on the BigInt path (line 277): sin of the wrapped sum of
theta and the rescaled quarter period. -/
def bigCos (rawLut : List ℤ) (f t : ℕ) (θ : ℤ) : Option ℤ :=
  bigSin rawLut f t (wrap t (θ + bigPI_HALF f t))

/-- Mirrors sin on the number path (lines 350-356): the same computation with
the number-path table and constants; the widened index is converted back with
Number(...) before the final modulo.  A zero rescaled TWO_PI makes theta %
TWO_PI equal NaN and the subsequent BigInt conversion throw, modelled as
none, as is an out-of-bounds read. -/
def numSin (rawLut : List ℤ) (f t : ℕ) (θ : ℤ) : Option ℤ :=
  if numTWO_PI f t = 0 then none
  else lutLookup (rawLut.map (numScaleQ16 f t))
    ((f64round (sinIndex (numTWO_PI f t) rawLut.length θ)).tmod (rawLut.length : ℤ))

/-- Mirrors cos on the number path (line 358): the float64 sum of theta and
the quarter period is rounded, wrapped and passed to sin. -/
def numCos (rawLut : List ℤ) (f t : ℕ) (θ : ℤ) : Option ℤ :=
  numSin rawLut f t (wrap t (f64round (θ + numPI_HALF f t)))

/-- Mirrors fromInt on the BigInt path (line 287): exact left shift, wrap. -/
def bigFromInt (f t : ℕ) (n : ℤ) : ℤ := wrap t (n * 2 ^ f)

/-- Mirrors fromInt on the number path (lines 368-371): the float64 product
n * ONE scales by a power of two, so it is the rounding of the exact
product; then wrap. -/
def numFromInt (f t : ℕ) (n : ℤ) : ℤ := wrap t (f64round (n * 2 ^ f))

/-- JS Math.round: round half toward positive infinity. -/
def jsMathRound (q : ℚ) : ℤ := ⌊q + 1 / 2⌋

/-- Mirrors fromFloat on the BigInt path (line 288).  The float64 product
f * Number(ONE) is modelled as the exact rational product; every claim below
about fromFloat depends only on the final wrap. -/
def bigFromFloat (f t : ℕ) (q : ℚ) : ℤ := wrap t (jsMathRound (q * 2 ^ f))

/-- Mirrors fromFloat on the number path (line 372), same modelling. -/
def numFromFloat (f t : ℕ) (q : ℚ) : ℤ := wrap t (jsMathRound (q * 2 ^ f))

/-- Mirrors fromString on the BigInt path (lines 289-290): parse, wrap. -/
def bigFromString (f t : ℕ) (sign : ℤ) (intPart fracPart fracLen : ℕ) : ℤ :=
  wrap t (parseFixedCore sign intPart fracPart fracLen f)

/-- Mirrors fromString on the number path (lines 373-374): the parsed BigInt
passes through Number(...) before the wrap. -/
def numFromString (f t : ℕ) (sign : ℤ) (intPart fracPart fracLen : ℕ) : ℤ :=
  wrap t (f64round (parseFixedCore sign intPart fracPart fracLen f))

/-- Mirrors toInt on the BigInt path (line 292): truncating division by ONE,
not wrapped. -/
def bigToInt (f : ℕ) (a : ℤ) : ℤ := a.tdiv (2 ^ f)

/-- Mirrors toInt on the number path (line 376): the float64 quotient a / ONE
is an exact power-of-two rescaling and Math.trunc truncates it toward zero,
so this is the truncating integer division; not wrapped. -/
def numToInt (f : ℕ) (a : ℤ) : ℤ := a.tdiv (2 ^ f)

/-- Mirrors add on the BigInt path (line 293). -/
def bigAdd (t : ℕ) (a b : ℤ) : ℤ := wrap t (a + b)

/-- Mirrors add on the number path (lines 377-381): the float64 sum is the
rounding of the exact sum; then wrap. -/
def numAdd (t : ℕ) (a b : ℤ) : ℤ := wrap t (f64round (a + b))

/-- Mirrors sub on the BigInt path (line 294). -/
def bigSub (t : ℕ) (a b : ℤ) : ℤ := wrap t (a - b)

/-- Mirrors sub on the number path (lines 382-386). -/
def numSub (t : ℕ) (a b : ℤ) : ℤ := wrap t (f64round (a - b))

/-- Mirrors negate on the BigInt path (line 295). -/
def bigNegate (t : ℕ) (a : ℤ) : ℤ := wrap t (-a)

/-- Mirrors negate on the number path (lines 387-390): float64 negation is
always exact. -/
def numNegate (t : ℕ) (a : ℤ) : ℤ := wrap t (-a)

/-- Mirrors abs on the BigInt path (line 308): wrap the negation when the
argument is negative, otherwise return the argument unchanged. -/
def bigAbs (t : ℕ) (a : ℤ) : ℤ := if a < 0 then wrap t (-a) else a

/-- Mirrors abs on the number path (lines 413-416). -/
def numAbs (t : ℕ) (a : ℤ) : ℤ := if a < 0 then wrap t (-a) else a

/-- Mirrors mul on the BigInt path (lines 296-297): full product, arithmetic
right shift by fractionBits (floor), wrap. -/
def bigMul (f t : ℕ) (a b : ℤ) : ℤ := wrap t ((a * b).fdiv (2 ^ f))

/-- Mirrors mul on the number path (lines 391-396): the widened BigInt
product is shifted, then converted back with Number(...) before the wrap. -/
def numMul (f t : ℕ) (a b : ℤ) : ℤ := wrap t (f64round ((a * b).fdiv (2 ^ f)))

/-- Mirrors div on the BigInt path (lines 298-302): none is the division by
zero error; otherwise shift the dividend, truncating quotient, wrap. -/
def bigDiv (f t : ℕ) (a b : ℤ) : Option ℤ :=
  if b = 0 then none else some (wrap t ((a * 2 ^ f).tdiv b))

/-- Mirrors div on the number path (lines 397-404): as bigDiv, but the
widened quotient is converted back with Number(...) before the wrap. -/
def numDiv (f t : ℕ) (a b : ℤ) : Option ℤ :=
  if b = 0 then none else some (wrap t (f64round ((a * 2 ^ f).tdiv b)))

/-- Mirrors mod on the BigInt path (lines 303-307): none is the division by
zero error; otherwise the truncating remainder (sign of the dividend),
wrapped and not rescaled. -/
def bigMod (t : ℕ) (a b : ℤ) : Option ℤ :=
  if b = 0 then none else some (wrap t (a.tmod b))

/-- Mirrors mod on the number path (lines 405-412). -/
def numMod (t : ℕ) (a b : ℤ) : Option ℤ :=
  if b = 0 then none else some (wrap t (f64round (a.tmod b)))

/-- Mirrors sqrt on the BigInt path (lines 311-316): none is the domain error
on a negative argument; otherwise the Newton integer square root of a * ONE,
wrapped. -/
def bigSqrt (f t : ℕ) (a : ℤ) : Option ℤ :=
  if a < 0 then none else some (wrap t (isqrt (a * 2 ^ f)))

/-- Mirrors sqrt on the number path (lines 419-425): the widened result is
converted back with Number(...) before the wrap. -/
def numSqrt (f t : ℕ) (a : ℤ) : Option ℤ :=
  if a < 0 then none else some (wrap t (f64round (isqrt (a * 2 ^ f))))

/-- Comparisons on the BigInt path (lines 317-322): direct comparison of the
scaled integers, total. -/
def bigEqOp (a b : ℤ) : Bool := decide (a = b)

/-- BigInt inequality (line 318). -/
def bigNeqOp (a b : ℤ) : Bool := decide (a ≠ b)

/-- BigInt greater-than (line 319). -/
def bigGtOp (a b : ℤ) : Bool := decide (b < a)

/-- BigInt greater-or-equal (line 320). -/
def bigGteOp (a b : ℤ) : Bool := decide (b ≤ a)

/-- BigInt less-than (line 321). -/
def bigLtOp (a b : ℤ) : Bool := decide (a < b)

/-- BigInt less-or-equal (line 322). -/
def bigLteOp (a b : ℤ) : Bool := decide (a ≤ b)

/-- Mirrors assertInteger (lines 327-331) on the number path: a finite
float64 operand (finite doubles are rationals, embedded in ℚ) passes exactly
when it is integral.  The comparisons call it on both operands before
comparing, so a non-integral operand makes them throw, modelled as none. -/
def assertIntegerOk (q : ℚ) : Bool := decide (q.den = 1)

/-- Number-path eq (lines 426-430). -/
def numEqOp (a b : ℚ) : Option Bool :=
  if assertIntegerOk a && assertIntegerOk b then some (decide (a = b)) else none

/-- Number-path neq (lines 431-435). -/
def numNeqOp (a b : ℚ) : Option Bool :=
  if assertIntegerOk a && assertIntegerOk b then some (decide (a ≠ b)) else none

/-- Number-path gt (lines 436-440). -/
def numGtOp (a b : ℚ) : Option Bool :=
  if assertIntegerOk a && assertIntegerOk b then some (decide (b < a)) else none

/-- Number-path gte (lines 441-445). -/
def numGteOp (a b : ℚ) : Option Bool :=
  if assertIntegerOk a && assertIntegerOk b then some (decide (b ≤ a)) else none

/-- Number-path lt (lines 446-450). -/
def numLtOp (a b : ℚ) : Option Bool :=
  if assertIntegerOk a && assertIntegerOk b then some (decide (a < b)) else none

/-- Number-path lte (lines 451-455). -/
def numLteOp (a b : ℚ) : Option Bool :=
  if assertIntegerOk a && assertIntegerOk b then some (decide (a ≤ b)) else none

/-- Modelled from the spec: round a rational to the nearest integer with
ties away from zero.  This is the rounding rule the specification ascribes
to fromString; it is compared below with what parseFixedCore computes.  For
a nonnegative q = num / den this is the floor of q + 1 / 2, computed as the
floor quotient of 2 * num + den by 2 * den; a negative q is rounded by sign
symmetry, which sends a tie to the more negative integer. -/
def specRoundHalfAwayZero (q : ℚ) : ℤ :=
  if 0 ≤ q.num then (2 * q.num + (q.den : ℤ)) / (2 * (q.den : ℤ))
  else -((2 * -q.num + (q.den : ℤ)) / (2 * (q.den : ℤ)))

/-! ### Helper lemmas -/

theorem two_pow_split (t : ℕ) (ht : 1 ≤ t) : (2 : ℤ) ^ t = 2 * 2 ^ (t - 1) := by
  rw [← pow_succ']
  congr 1
  omega

theorem wrap_inRange (t : ℕ) (v : ℤ) (ht : 1 ≤ t) : InRange t (wrap t v) := by
  have hts := two_pow_split t ht
  have hpos : (0 : ℤ) < 2 ^ t := by positivity
  have hm0 : 0 ≤ v % 2 ^ t := Int.emod_nonneg v (by positivity)
  have hmlt : v % 2 ^ t < 2 ^ t := Int.emod_lt_of_pos v hpos
  unfold wrap InRange MIN MAX
  split <;> omega

theorem wrap_eq_self (t : ℕ) (v : ℤ) (ht : 1 ≤ t) (h1 : MIN t ≤ v) (h2 : v ≤ MAX t) :
    wrap t v = v := by
  have hts := two_pow_split t ht
  simp only [MIN, MAX] at h1 h2
  unfold wrap
  rcases le_or_lt 0 v with hv | hv
  · have he : v % 2 ^ t = v := Int.emod_eq_of_lt hv (by omega)
    rw [he, if_neg (by omega)]
  · have he : v % 2 ^ t = v + 2 ^ t := by
      have hs : (v + 2 ^ t * 1) % 2 ^ t = v % 2 ^ t := Int.add_mul_emod_self_left v (2 ^ t) 1
      have he2 : (v + 2 ^ t) % 2 ^ t = v + 2 ^ t := Int.emod_eq_of_lt (by omega) (by omega)
      calc v % 2 ^ t = (v + 2 ^ t * 1) % 2 ^ t := hs.symm
        _ = (v + 2 ^ t) % 2 ^ t := by ring_nf
        _ = v + 2 ^ t := he2
    rw [he, if_pos (by omega)]
    omega

theorem f64roundNat_eq_self (n : ℕ) (h : n < 2 ^ 53) : f64roundNat n = n := by
  unfold f64roundNat
  rw [if_pos h]

theorem f64round_eq_self (x : ℤ) (h : x.natAbs < 2 ^ 53) : f64round x = x := by
  unfold f64round
  rcases le_or_lt 0 x with hx | hx
  · rw [if_pos hx, f64roundNat_eq_self x.toNat (by omega)]
    omega
  · rw [if_neg (by omega), f64roundNat_eq_self (-x).toNat (by omega)]
    omega

theorem neg_tmod (a b : ℤ) : (-a).tmod b = -(a.tmod b) := by
  rw [Int.tmod_def, Int.tmod_def, Int.neg_tdiv]
  ring

theorem tmod_bounds_of_pos (a b : ℤ) (hb : 0 < b) : -b < a.tmod b ∧ a.tmod b < b := by
  constructor
  · rcases le_or_lt 0 a with ha | ha
    · have h0 : 0 ≤ a.tmod b := Int.tmod_nonneg b ha
      omega
    · have h1 : (-a).tmod b < b := Int.tmod_lt_of_pos (-a) hb
      rw [neg_tmod] at h1
      omega
  · exact Int.tmod_lt_of_pos a hb

theorem tmod_eq_self_of_lt (a b : ℤ) (h0 : 0 ≤ a) (h1 : a < b) : a.tmod b = a := by
  rw [Int.tmod_eq_emod h0 (by omega)]
  exact Int.emod_eq_of_lt h0 h1

theorem tdiv_inRange (f t : ℕ) (a : ℤ) (ha : InRange t a) :
    InRange t (a.tdiv (2 ^ f)) := by
  have hpos : (0 : ℤ) < 2 ^ f := by positivity
  have hpos2 : (0 : ℤ) < 2 ^ (t - 1) := by positivity
  unfold InRange MIN MAX at *
  rcases le_or_lt 0 a with h | h
  · have h1 : 0 ≤ a.tdiv (2 ^ f) := Int.tdiv_nonneg h (le_of_lt hpos)
    have h2 : a.tdiv (2 ^ f) ≤ a := by
      rw [Int.tdiv_eq_ediv h (le_of_lt hpos)]
      exact Int.ediv_le_self _ h
    omega
  · have hrw : a.tdiv (2 ^ f) = -((-a).tdiv (2 ^ f)) := by
      rw [Int.neg_tdiv, neg_neg]
    have h1 : 0 ≤ (-a).tdiv (2 ^ f) := Int.tdiv_nonneg (by omega) (le_of_lt hpos)
    have h2 : (-a).tdiv (2 ^ f) ≤ -a := by
      rw [Int.tdiv_eq_ediv (by omega) (le_of_lt hpos)]
      exact Int.ediv_le_self _ (by omega)
    omega

theorem isqrtIter_eq_iter (n g : ℕ) : isqrtIter n g = Nat.sqrt.iter n g := by
  induction g using isqrtIter.induct (n := n) with
  | case1 g h ih =>
    rw [isqrtIter, Nat.sqrt.iter]
    simp only [if_pos h, dif_pos h]
    exact ih
  | case2 g h =>
    rw [isqrtIter, Nat.sqrt.iter]
    simp only [if_neg h, dif_neg h]

theorem isqrt_eq_sqrt (x : ℤ) (hx : 0 ≤ x) : isqrt x = (Nat.sqrt x.toNat : ℤ) := by
  unfold isqrt
  split
  · have hx2 : x = 0 ∨ x = 1 := by omega
    rcases hx2 with rfl | rfl <;> simp
  · rw [isqrtIter_eq_iter]
    congr 1
    have h1 := Nat.sqrt.iter_sq_le x.toNat x.toNat
    have h2 := Nat.sqrt.lt_iter_succ_sq x.toNat x.toNat (by nlinarith [x.toNat.zero_le])
    exact Nat.eq_sqrt.mpr ⟨h1, h2⟩

theorem sinIndex_bounds (TP : ℤ) (L : ℕ) (θ : ℤ) (hTP : 0 < TP) (hL : 0 < L) :
    0 ≤ sinIndex TP L θ ∧ sinIndex TP L θ < (L : ℤ) := by
  unfold sinIndex
  have hb := tmod_bounds_of_pos θ TP hTP
  have ht1 : 0 ≤ (if θ.tmod TP < 0 then θ.tmod TP + TP else θ.tmod TP) ∧
      (if θ.tmod TP < 0 then θ.tmod TP + TP else θ.tmod TP) < TP := by
    split <;> omega
  set t1 := if θ.tmod TP < 0 then θ.tmod TP + TP else θ.tmod TP with ht1d
  have hprod : 0 ≤ t1 * (L : ℤ) := mul_nonneg ht1.1 (by positivity)
  rw [Int.tdiv_eq_ediv hprod (le_of_lt hTP)]
  refine ⟨Int.ediv_nonneg hprod (le_of_lt hTP), ?_⟩
  rw [Int.ediv_lt_iff_lt_mul hTP]
  calc t1 * (L : ℤ) < TP * (L : ℤ) :=
        mul_lt_mul_of_pos_right ht1.2 (by exact_mod_cast hL)
    _ = (L : ℤ) * TP := mul_comm _ _

theorem wrap_add_pow (t : ℕ) (v k : ℤ) : wrap t (v + 2 ^ t * k) = wrap t v := by
  unfold wrap
  rw [Int.add_mul_emod_self_left]

theorem pow_sub_one_le (t : ℕ) (ht32 : t ≤ 32) : (2 : ℤ) ^ (t - 1) ≤ 2 ^ 31 :=
  pow_le_pow_right₀ (by norm_num) (by omega)

/-! ### Claims -/

/-- C3: for every valid configuration, under either backing,
add(MAX, EPSILON) = MIN and sub(MIN, EPSILON) = MAX: overflow wraps
twos-complement at totalBits.  The number backing exists only for
totalBits up to 32, hence the guard on its conjuncts. -/
theorem C3_addMaxEpsilonWraps (f t : ℕ) (hf : 0 < f) (hft : f < t) :
    bigAdd t (MAX t) EPSILON = MIN t ∧ bigSub t (MIN t) EPSILON = MAX t ∧
    (t ≤ 32 → numAdd t (MAX t) EPSILON = MIN t ∧ numSub t (MIN t) EPSILON = MAX t) := by
  have ht : 1 ≤ t := by omega
  have hts := two_pow_split t ht
  have hp : (0 : ℤ) < 2 ^ (t - 1) := by positivity
  have hup : MAX t + EPSILON = MIN t + 2 ^ t * 1 := by
    unfold MAX MIN EPSILON
    omega
  have hdown : MIN t - EPSILON = MAX t + 2 ^ t * (-1) := by
    unfold MAX MIN EPSILON
    omega
  have hMINr : wrap t (MIN t) = MIN t := by
    apply wrap_eq_self t _ ht le_rfl
    unfold MIN MAX
    omega
  have hMAXr : wrap t (MAX t) = MAX t := by
    apply wrap_eq_self t _ ht
    · unfold MIN MAX
      omega
    · exact le_rfl
  have hadd : wrap t (MAX t + EPSILON) = MIN t := by
    rw [hup, wrap_add_pow, hMINr]
  have hsub : wrap t (MIN t - EPSILON) = MAX t := by
    rw [hdown, wrap_add_pow, hMAXr]
  refine ⟨hadd, hsub, fun ht32 => ⟨?_, ?_⟩⟩
  · unfold numAdd
    rw [f64round_eq_self _ ?_, hadd]
    have hb := pow_sub_one_le t ht32
    unfold MAX EPSILON
    omega
  · unfold numSub
    rw [f64round_eq_self _ ?_, hsub]
    have hb := pow_sub_one_le t ht32
    unfold MIN EPSILON
    omega

/-- Witness for C3 at fractionBits 16, totalBits 32. -/
theorem C3_addMaxEpsilonWraps_witness :
    0 < 16 ∧ 16 < 32 ∧
      (bigAdd 32 (MAX 32) EPSILON = MIN 32 ∧ bigSub 32 (MIN 32) EPSILON = MAX 32 ∧
        (32 ≤ 32 → numAdd 32 (MAX 32) EPSILON = MIN 32 ∧
          numSub 32 (MIN 32) EPSILON = MAX 32)) :=
  ⟨by decide, by decide, C3_addMaxEpsilonWraps 16 32 (by decide) (by decide)⟩

/-- C5: round-trip: for every valid format and every integer n whose scaled
value n * 2^fractionBits lies within [MIN, MAX], toInt(fromInt(n)) = n, on
both backings (the number backing existing only for totalBits up to 32). -/
theorem C5_roundTrip (f t : ℕ) (n : ℤ) (hf : 0 < f) (hft : f < t)
    (h1 : MIN t ≤ n * 2 ^ f) (h2 : n * 2 ^ f ≤ MAX t) :
    bigToInt f (bigFromInt f t n) = n ∧ (t ≤ 32 → numToInt f (numFromInt f t n) = n) := by
  have ht : 1 ≤ t := by omega
  have hw : wrap t (n * 2 ^ f) = n * 2 ^ f := wrap_eq_self t _ ht h1 h2
  have hcancel : (n * 2 ^ f).tdiv (2 ^ f) = n :=
    Int.mul_tdiv_cancel n (by positivity)
  refine ⟨?_, fun ht32 => ?_⟩
  · unfold bigToInt bigFromInt
    rw [hw, hcancel]
  · unfold numToInt numFromInt
    rw [f64round_eq_self _ ?_, hw, hcancel]
    have hb := pow_sub_one_le t ht32
    simp only [MIN, MAX] at h1 h2
    omega

/-- Witness for C5 at fractionBits 16, totalBits 32, n = -1024. -/
theorem C5_roundTrip_witness :
    0 < 16 ∧ 16 < 32 ∧ MIN 32 ≤ (-1024 : ℤ) * 2 ^ 16 ∧ (-1024 : ℤ) * 2 ^ 16 ≤ MAX 32 ∧
      (bigToInt 16 (bigFromInt 16 32 (-1024)) = -1024 ∧
        (32 ≤ 32 → numToInt 16 (numFromInt 16 32 (-1024)) = -1024)) :=
  ⟨by decide, by decide, by decide, by decide,
    C5_roundTrip 16 32 (-1024) (by decide) (by decide) (by decide) (by decide)⟩

/-- C8: cos(theta) is sin applied to theta + PI_HALF with the sum wrapped
twos-complement before being passed to sin, on both backings; on the number
path the float64 sum of an in-range theta and the (wrapped, hence in-range)
quarter-period constant is exact, so the same identity holds there. -/
theorem C8_cosIsShiftedSin (rawLut : List ℤ) (f t : ℕ) (θ : ℤ) (hf : 0 < f) (hft : f < t) :
    bigCos rawLut f t θ = bigSin rawLut f t (wrap t (θ + bigPI_HALF f t)) ∧
    (t ≤ 32 → InRange t θ →
      numCos rawLut f t θ = numSin rawLut f t (wrap t (θ + numPI_HALF f t))) := by
  have ht : 1 ≤ t := by omega
  refine ⟨rfl, fun ht32 hθ => ?_⟩
  have hPH : InRange t (numPI_HALF f t) := by
    unfold numPI_HALF numScaleQ16
    exact wrap_inRange t _ ht
  have hb := pow_sub_one_le t ht32
  unfold numCos
  rw [f64round_eq_self _ ?_]
  unfold InRange MIN MAX at hθ hPH
  omega

/-- Witness for C8 at fractionBits 16, totalBits 32, theta 123, a two-entry
table. -/
theorem C8_cosIsShiftedSin_witness :
    0 < 16 ∧ 16 < 32 ∧ 32 ≤ 32 ∧ InRange 32 123 ∧
      (bigCos [0, 1] 16 32 123 = bigSin [0, 1] 16 32 (wrap 32 (123 + bigPI_HALF 16 32)) ∧
        (32 ≤ 32 → InRange 32 123 →
          numCos [0, 1] 16 32 123 = numSin [0, 1] 16 32 (wrap 32 (123 + numPI_HALF 16 32)))) :=
  ⟨by decide, by decide, by decide, by decide,
    C8_cosIsShiftedSin [0, 1] 16 32 123 (by decide) (by decide)⟩

theorem lutLookup_isSome_of_bounds (lut : List ℤ) (i : ℤ) (h0 : 0 ≤ i)
    (hlen : i < (lut.length : ℤ)) : ∃ r, lutLookup lut i = some r := by
  unfold lutLookup
  rw [dif_pos ⟨h0, by omega⟩]
  exact ⟨_, rfl⟩

/-- C10: for a format whose rescaled TWO_PI constant is positive and a
nonempty table, the index computed by sin lies in [0, LUT_SIZE), the final
modulo by LUT_SIZE leaves it unchanged, and the lookup returns a sample.
Both backings; the number path converts the widened index with Number(...),
exact because the table length is below 2^53. -/
theorem C10_sinIndexInBounds (lut : List ℤ) (f t : ℕ) (θ : ℤ) (hf : 0 < f) (hft : f < t)
    (hlut : lut ≠ []) (hL53 : lut.length < 2 ^ 53) :
    (0 < bigTWO_PI f t →
      0 ≤ sinIndex (bigTWO_PI f t) lut.length θ ∧
      sinIndex (bigTWO_PI f t) lut.length θ < (lut.length : ℤ) ∧
      (sinIndex (bigTWO_PI f t) lut.length θ).tmod (lut.length : ℤ) =
        sinIndex (bigTWO_PI f t) lut.length θ ∧
      (bigSin lut f t θ).isSome = true) ∧
    (0 < numTWO_PI f t →
      0 ≤ sinIndex (numTWO_PI f t) lut.length θ ∧
      sinIndex (numTWO_PI f t) lut.length θ < (lut.length : ℤ) ∧
      (sinIndex (numTWO_PI f t) lut.length θ).tmod (lut.length : ℤ) =
        sinIndex (numTWO_PI f t) lut.length θ ∧
      (numSin lut f t θ).isSome = true) := by
  have hL : 0 < lut.length := List.length_pos.mpr hlut
  constructor
  · intro hTP
    obtain ⟨hi0, hiL⟩ := sinIndex_bounds (bigTWO_PI f t) lut.length θ hTP hL
    have hself := tmod_eq_self_of_lt _ _ hi0 hiL
    refine ⟨hi0, hiL, hself, ?_⟩
    unfold bigSin
    rw [if_neg (by omega), hself]
    obtain ⟨r, hr⟩ := lutLookup_isSome_of_bounds (lut.map (bigScaleQ16 f t)) _ hi0
      (by rw [List.length_map]; exact hiL)
    rw [hr]
    rfl
  · intro hTP
    obtain ⟨hi0, hiL⟩ := sinIndex_bounds (numTWO_PI f t) lut.length θ hTP hL
    have hself := tmod_eq_self_of_lt _ _ hi0 hiL
    refine ⟨hi0, hiL, hself, ?_⟩
    unfold numSin
    have hfr : f64round (sinIndex (numTWO_PI f t) lut.length θ) =
        sinIndex (numTWO_PI f t) lut.length θ := by
      apply f64round_eq_self
      omega
    rw [if_neg (by omega), hfr, hself]
    obtain ⟨r, hr⟩ := lutLookup_isSome_of_bounds (lut.map (numScaleQ16 f t)) _ hi0
      (by rw [List.length_map]; exact hiL)
    rw [hr]
    rfl

/-- Witness for C10 at fractionBits 16, totalBits 32, theta -3, a two-entry
table; the rescaled TWO_PI is the positive 411775 there. -/
theorem C10_sinIndexInBounds_witness :
    0 < 16 ∧ 16 < 32 ∧ ([0, 1] : List ℤ) ≠ [] ∧ ([0, 1] : List ℤ).length < 2 ^ 53 ∧
      ((0 < bigTWO_PI 16 32 →
        0 ≤ sinIndex (bigTWO_PI 16 32) ([0, 1] : List ℤ).length (-3) ∧
        sinIndex (bigTWO_PI 16 32) ([0, 1] : List ℤ).length (-3) <
          (([0, 1] : List ℤ).length : ℤ) ∧
        (sinIndex (bigTWO_PI 16 32) ([0, 1] : List ℤ).length (-3)).tmod
            (([0, 1] : List ℤ).length : ℤ) =
          sinIndex (bigTWO_PI 16 32) ([0, 1] : List ℤ).length (-3) ∧
        (bigSin [0, 1] 16 32 (-3)).isSome = true) ∧
      (0 < numTWO_PI 16 32 →
        0 ≤ sinIndex (numTWO_PI 16 32) ([0, 1] : List ℤ).length (-3) ∧
        sinIndex (numTWO_PI 16 32) ([0, 1] : List ℤ).length (-3) <
          (([0, 1] : List ℤ).length : ℤ) ∧
        (sinIndex (numTWO_PI 16 32) ([0, 1] : List ℤ).length (-3)).tmod
            (([0, 1] : List ℤ).length : ℤ) =
          sinIndex (numTWO_PI 16 32) ([0, 1] : List ℤ).length (-3) ∧
        (numSin [0, 1] 16 32 (-3)).isSome = true)) :=
  ⟨by decide, by decide, by decide, by decide,
    C10_sinIndexInBounds [0, 1] 16 32 (-3) (by decide) (by decide) (by decide) (by decide)⟩

/-- C9 amended: the comparisons compare the scaled integers directly; on the
BigInt backing they are total with no failure modes; on the number backing
they return the boolean for finite integer operands but throw (none) on a
non-integer operand, as the counterexample shows. -/
theorem C9_comparisons (a b : ℚ) (x y : ℤ) (ha : a.den = 1) (hb : b.den = 1) :
    numEqOp a b = some (decide (a = b)) ∧
    numNeqOp a b = some (decide (a ≠ b)) ∧
    numGtOp a b = some (decide (b < a)) ∧
    numGteOp a b = some (decide (b ≤ a)) ∧
    numLtOp a b = some (decide (a < b)) ∧
    numLteOp a b = some (decide (a ≤ b)) ∧
    bigEqOp x y = decide (x = y) ∧
    bigNeqOp x y = decide (x ≠ y) ∧
    bigGtOp x y = decide (y < x) ∧
    bigGteOp x y = decide (y ≤ x) ∧
    bigLtOp x y = decide (x < y) ∧
    bigLteOp x y = decide (x ≤ y) := by
  unfold numEqOp numNeqOp numGtOp numGteOp numLtOp numLteOp assertIntegerOk
  simp [ha, hb, bigEqOp, bigNeqOp, bigGtOp, bigGteOp, bigLtOp, bigLteOp]

/-- Counterexample to C9 as stated: on the number backing, eq applied to the
non-integer finite operand 3/2 throws the assertInteger type error (none)
instead of returning a boolean, so the number-path comparisons are not total
with no failure modes. -/
theorem C9_comparisons_counterexample : numEqOp (Rat.mk' 3 2) 1 = none := by decide

/-- Witness for C9 at the integer operands 2 and 3. -/
theorem C9_comparisons_witness :
    ((2 : ℚ)).den = 1 ∧ ((3 : ℚ)).den = 1 ∧
      (numEqOp 2 3 = some (decide ((2 : ℚ) = 3)) ∧
      numNeqOp 2 3 = some (decide ((2 : ℚ) ≠ 3)) ∧
      numGtOp 2 3 = some (decide ((3 : ℚ) < 2)) ∧
      numGteOp 2 3 = some (decide ((3 : ℚ) ≤ 2)) ∧
      numLtOp 2 3 = some (decide ((2 : ℚ) < 3)) ∧
      numLteOp 2 3 = some (decide ((2 : ℚ) ≤ 3)) ∧
      bigEqOp 2 3 = decide ((2 : ℤ) = 3) ∧
      bigNeqOp 2 3 = decide ((2 : ℤ) ≠ 3) ∧
      bigGtOp 2 3 = decide ((3 : ℤ) < 2) ∧
      bigGteOp 2 3 = decide ((3 : ℤ) ≤ 2) ∧
      bigLtOp 2 3 = decide ((2 : ℤ) < 3) ∧
      bigLteOp 2 3 = decide ((2 : ℤ) ≤ 3)) :=
  ⟨by decide, by decide, C9_comparisons 2 3 2 3 (by decide) (by decide)⟩

/-- C2, evaluated at the tie input: fromString of the well-formed string
"-0.25" (components: sign -1, integer part 0, fractional digits 25 of length
2) at fractionBits 1.  The exact scaled value is -1/2, an exact tie; the
code rounds it to 0 (floor of the half-adjusted numerator, ties toward
positive infinity) while the claimed rule, ties away from zero, gives -1. -/
theorem C2_fromStringTieEval :
    parseFixedCore (-1) 0 25 2 1 = 0 ∧
    bigFromString 1 32 (-1) 0 25 2 = 0 ∧
    numFromString 1 32 (-1) 0 25 2 = 0 ∧
    specRoundHalfAwayZero (Rat.mk' (-1) 2) = -1 ∧
    (Rat.mk' (-1) 2 : ℚ) = (-1 : ℚ) * (0 + 25 / 100) * 2 ^ 1 := by
  refine ⟨by decide, by decide, by decide, by decide, ?_⟩
  rw [Rat.mk'_eq_divInt, Rat.divInt_eq_div]
  norm_num

/-- C1, evaluated at the failing input: with fractionBits 1, totalBits 32
and the in-range scaled operands 2147483647 and 2147483645, mul on the
number backing converts the widened 62-bit shifted product with Number(...),
which rounds away its low bits, so the two backings disagree (0 versus 1). -/
theorem C1_mulBackingDivergence :
    InRange 32 2147483647 ∧ InRange 32 2147483645 ∧
    bigMul 1 32 2147483647 2147483645 = 1 ∧
    numMul 1 32 2147483647 2147483645 = 0 ∧
    numMul 1 32 2147483647 2147483645 ≠ bigMul 1 32 2147483647 2147483645 := by decide

/-- C6, evaluated at the failing input: div throws exactly on a zero divisor
on both backings, and the BigInt backing returns the wrap of the truncated
quotient; but with fractionBits 31, totalBits 32, a = 2147483647, b = 3 the
number backing converts the 61-bit quotient with Number(...), which rounds
it before the wrap, so the returned value is not the wrap of the truncated
quotient. -/
theorem C6_divModEval :
    InRange 32 2147483647 ∧ InRange 32 3 ∧
    bigDiv 31 32 2147483647 3 = some (wrap 32 (((2147483647 : ℤ) * 2 ^ 31).tdiv 3)) ∧
    numDiv 31 32 2147483647 3 ≠ some (wrap 32 (((2147483647 : ℤ) * 2 ^ 31).tdiv 3)) ∧
    (∀ b : ℤ, (bigDiv 31 32 2147483647 b = none ↔ b = 0) ∧
      (numDiv 31 32 2147483647 b = none ↔ b = 0) ∧
      (bigMod 32 2147483647 b = none ↔ b = 0) ∧
      (numMod 32 2147483647 b = none ↔ b = 0)) := by
  refine ⟨by decide, by decide, by decide, by decide, fun b => ?_⟩
  unfold bigDiv numDiv bigMod numMod
  refine ⟨?_, ?_, ?_, ?_⟩ <;> split <;> simp_all

/-- C7: sqrt fails with a domain error exactly on a negative argument; for a
nonnegative argument the Newton iteration (modelled by the terminating
recursion isqrtIter) returns the floor integer square root of a * ONE, which
sqrt wraps to totalBits.  On the number backing this holds for in-range
arguments, where the result is below 2^31 and the Number(...) conversion is
exact. -/
theorem C7_sqrtNewton (f t : ℕ) (a : ℤ) (hf : 0 < f) (hft : f < t) :
    (bigSqrt f t a = none ↔ a < 0) ∧
    (0 ≤ a → bigSqrt f t a = some (wrap t ((Nat.sqrt (a * 2 ^ f).toNat : ℤ)))) ∧
    (t ≤ 32 → InRange t a →
      ((numSqrt f t a = none ↔ a < 0) ∧
        (0 ≤ a → numSqrt f t a = some (wrap t ((Nat.sqrt (a * 2 ^ f).toNat : ℤ)))))) := by
  refine ⟨?_, ?_, fun ht32 hrange => ⟨?_, ?_⟩⟩
  · unfold bigSqrt
    split <;> simp_all
  · intro ha0
    unfold bigSqrt
    rw [if_neg (by omega), isqrt_eq_sqrt _ (mul_nonneg ha0 (by positivity))]
  · unfold numSqrt
    split <;> simp_all
  · intro ha0
    have hb1 : a ≤ 2 ^ 31 - 1 := by
      have := pow_sub_one_le t ht32
      simp only [InRange, MIN, MAX] at hrange
      omega
    have hb2 : (2 : ℤ) ^ f ≤ 2 ^ 31 :=
      pow_le_pow_right₀ (by norm_num) (by omega)
    have hprod : a * 2 ^ f ≤ ((2 : ℤ) ^ 31 - 1) * 2 ^ 31 :=
      mul_le_mul hb1 hb2 (by positivity) (by norm_num)
    have hlit : ((2 : ℤ) ^ 31 - 1) * 2 ^ 31 < 2 ^ 62 := by norm_num
    have hsq : Nat.sqrt (a * 2 ^ f).toNat < 2 ^ 31 :=
      Nat.sqrt_lt.mpr (by omega)
    unfold numSqrt
    rw [if_neg (by omega), isqrt_eq_sqrt _ (mul_nonneg ha0 (by positivity)),
      f64round_eq_self _ (by omega)]

/-- Witness for C7 at fractionBits 16, totalBits 32, a = 4 * 2^16. -/
theorem C7_sqrtNewton_witness :
    0 < 16 ∧ 16 < 32 ∧ 32 ≤ 32 ∧ InRange 32 262144 ∧
      ((bigSqrt 16 32 262144 = none ↔ (262144 : ℤ) < 0) ∧
      ((0 : ℤ) ≤ 262144 →
        bigSqrt 16 32 262144 = some (wrap 32 ((Nat.sqrt ((262144 : ℤ) * 2 ^ 16).toNat : ℤ)))) ∧
      (32 ≤ 32 → InRange 32 262144 →
        ((numSqrt 16 32 262144 = none ↔ (262144 : ℤ) < 0) ∧
        ((0 : ℤ) ≤ 262144 →
          numSqrt 16 32 262144 =
            some (wrap 32 ((Nat.sqrt ((262144 : ℤ) * 2 ^ 16).toNat : ℤ))))))) :=
  ⟨by decide, by decide, by decide, by decide,
    C7_sqrtNewton 16 32 262144 (by decide) (by decide)⟩

theorem bigSin_some_inRange (lut : List ℤ) (f t : ℕ) (θ : ℤ) (ht : 1 ≤ t)
    (hTP : 0 < bigTWO_PI f t) (hlut : lut ≠ []) :
    ∃ r, bigSin lut f t θ = some r ∧ InRange t r := by
  have hL : 0 < lut.length := List.length_pos.mpr hlut
  obtain ⟨hi0, hiL⟩ := sinIndex_bounds (bigTWO_PI f t) lut.length θ hTP hL
  have hself := tmod_eq_self_of_lt _ _ hi0 hiL
  unfold bigSin
  rw [if_neg (by omega), hself]
  unfold lutLookup
  rw [dif_pos ⟨hi0, by rw [List.length_map]; omega⟩]
  refine ⟨_, rfl, ?_⟩
  rw [List.get_map]
  unfold bigScaleQ16
  exact wrap_inRange t _ ht

theorem numSin_some_inRange (lut : List ℤ) (f t : ℕ) (θ : ℤ) (ht : 1 ≤ t)
    (hTP : 0 < numTWO_PI f t) (hlut : lut ≠ []) (hL53 : lut.length < 2 ^ 53) :
    ∃ r, numSin lut f t θ = some r ∧ InRange t r := by
  have hL : 0 < lut.length := List.length_pos.mpr hlut
  obtain ⟨hi0, hiL⟩ := sinIndex_bounds (numTWO_PI f t) lut.length θ hTP hL
  have hself := tmod_eq_self_of_lt _ _ hi0 hiL
  unfold numSin
  rw [if_neg (by omega), f64round_eq_self _ (by omega), hself]
  unfold lutLookup
  rw [dif_pos ⟨hi0, by rw [List.length_map]; omega⟩]
  refine ⟨_, rfl, ?_⟩
  rw [List.get_map]
  unfold numScaleQ16
  exact wrap_inRange t _ ht

/-- C4 amended: with every scaled-integer operand in [MIN, MAX], every value
a value-producing operation returns lies in [MIN, MAX] on both backings,
where div and mod require a nonzero divisor, sqrt a nonnegative argument,
and sin and cos additionally a positive rescaled TWO_PI constant and a
nonempty table (without which they return no value at all, as the
counterexample shows). -/
theorem C4_rangeInvariant (f t : ℕ) (lut : List ℤ) (a b n θ sg : ℤ)
    (ip fp fl : ℕ) (q : ℚ) (hf : 0 < f) (hft : f < t)
    (ha : InRange t a) (hb : InRange t b) (hlut : lut ≠ [])
    (hL53 : lut.length < 2 ^ 53) :
    InRange t (bigFromInt f t n) ∧ InRange t (numFromInt f t n) ∧
    InRange t (bigFromFloat f t q) ∧ InRange t (numFromFloat f t q) ∧
    InRange t (bigFromString f t sg ip fp fl) ∧
    InRange t (numFromString f t sg ip fp fl) ∧
    InRange t (bigToInt f a) ∧ InRange t (numToInt f a) ∧
    InRange t (bigAdd t a b) ∧ InRange t (numAdd t a b) ∧
    InRange t (bigSub t a b) ∧ InRange t (numSub t a b) ∧
    InRange t (bigNegate t a) ∧ InRange t (numNegate t a) ∧
    InRange t (bigAbs t a) ∧ InRange t (numAbs t a) ∧
    InRange t (bigMul f t a b) ∧ InRange t (numMul f t a b) ∧
    (b ≠ 0 → ∃ r, bigDiv f t a b = some r ∧ InRange t r) ∧
    (b ≠ 0 → ∃ r, numDiv f t a b = some r ∧ InRange t r) ∧
    (b ≠ 0 → ∃ r, bigMod t a b = some r ∧ InRange t r) ∧
    (b ≠ 0 → ∃ r, numMod t a b = some r ∧ InRange t r) ∧
    (0 ≤ a → ∃ r, bigSqrt f t a = some r ∧ InRange t r) ∧
    (0 ≤ a → ∃ r, numSqrt f t a = some r ∧ InRange t r) ∧
    (0 < bigTWO_PI f t → ∃ r, bigSin lut f t θ = some r ∧ InRange t r) ∧
    (0 < bigTWO_PI f t → ∃ r, bigCos lut f t θ = some r ∧ InRange t r) ∧
    (0 < numTWO_PI f t → ∃ r, numSin lut f t θ = some r ∧ InRange t r) ∧
    (0 < numTWO_PI f t → ∃ r, numCos lut f t θ = some r ∧ InRange t r) := by
  have ht : 1 ≤ t := by omega
  have hwrap : ∀ v : ℤ, InRange t (wrap t v) := fun v => wrap_inRange t v ht
  refine ⟨hwrap _, hwrap _, hwrap _, hwrap _, hwrap _, hwrap _,
    tdiv_inRange f t a ha, tdiv_inRange f t a ha,
    hwrap _, hwrap _, hwrap _, hwrap _, hwrap _, hwrap _,
    ?_, ?_, hwrap _, hwrap _, ?_, ?_, ?_, ?_, ?_, ?_, ?_, ?_, ?_, ?_⟩
  · unfold bigAbs
    split
    · exact hwrap _
    · exact ha
  · unfold numAbs
    split
    · exact hwrap _
    · exact ha
  · intro hb0
    refine ⟨wrap t ((a * 2 ^ f).tdiv b), ?_, hwrap _⟩
    unfold bigDiv
    rw [if_neg hb0]
  · intro hb0
    refine ⟨wrap t (f64round ((a * 2 ^ f).tdiv b)), ?_, hwrap _⟩
    unfold numDiv
    rw [if_neg hb0]
  · intro hb0
    refine ⟨wrap t (a.tmod b), ?_, hwrap _⟩
    unfold bigMod
    rw [if_neg hb0]
  · intro hb0
    refine ⟨wrap t (f64round (a.tmod b)), ?_, hwrap _⟩
    unfold numMod
    rw [if_neg hb0]
  · intro ha0
    refine ⟨wrap t (isqrt (a * 2 ^ f)), ?_, hwrap _⟩
    unfold bigSqrt
    rw [if_neg (by omega)]
  · intro ha0
    refine ⟨wrap t (f64round (isqrt (a * 2 ^ f))), ?_, hwrap _⟩
    unfold numSqrt
    rw [if_neg (by omega)]
  · intro hTP
    exact bigSin_some_inRange lut f t θ ht hTP hlut
  · intro hTP
    unfold bigCos
    exact bigSin_some_inRange lut f t _ ht hTP hlut
  · intro hTP
    exact numSin_some_inRange lut f t θ ht hTP hlut hL53
  · intro hTP
    unfold numCos
    exact numSin_some_inRange lut f t _ ht hTP hlut hL53

/-- Counterexample to C4 as stated: fractionBits 16 with totalBits 18 is a
valid format, but its rescaled TWO_PI constant wraps to the negative
-112513, and at the in-range operand 56257 the sin index is negative, so
the table read is out of bounds and sin yields no value at all (in JS,
undefined) on either backing, rather than a scaled integer in [MIN, MAX]. -/
theorem C4_rangeInvariant_counterexample :
    0 < 16 ∧ 16 < 18 ∧ InRange 18 56257 ∧ bigTWO_PI 16 18 = -112513 ∧
    bigSin [0, 1] 16 18 56257 = none ∧ numSin [0, 1] 16 18 56257 = none := by decide

/-- Witness for C4 at fractionBits 16, totalBits 32, a two-entry table and
operands a = -1024, b = 3, n = 2, theta = 5, fromString components sign -1,
integer digits 0, fractional digits 25 (two digits), fromFloat argument 1. -/
theorem C4_rangeInvariant_witness :
    0 < 16 ∧ 16 < 32 ∧ InRange 32 (-1024) ∧ InRange 32 3 ∧
    ([0, 1] : List ℤ) ≠ [] ∧ ([0, 1] : List ℤ).length < 2 ^ 53 ∧
    (InRange 32 (bigFromInt 16 32 2) ∧ InRange 32 (numFromInt 16 32 2) ∧
    InRange 32 (bigFromFloat 16 32 1) ∧ InRange 32 (numFromFloat 16 32 1) ∧
    InRange 32 (bigFromString 16 32 (-1) 0 25 2) ∧
    InRange 32 (numFromString 16 32 (-1) 0 25 2) ∧
    InRange 32 (bigToInt 16 (-1024)) ∧ InRange 32 (numToInt 16 (-1024)) ∧
    InRange 32 (bigAdd 32 (-1024) 3) ∧ InRange 32 (numAdd 32 (-1024) 3) ∧
    InRange 32 (bigSub 32 (-1024) 3) ∧ InRange 32 (numSub 32 (-1024) 3) ∧
    InRange 32 (bigNegate 32 (-1024)) ∧ InRange 32 (numNegate 32 (-1024)) ∧
    InRange 32 (bigAbs 32 (-1024)) ∧ InRange 32 (numAbs 32 (-1024)) ∧
    InRange 32 (bigMul 16 32 (-1024) 3) ∧ InRange 32 (numMul 16 32 (-1024) 3) ∧
    ((3 : ℤ) ≠ 0 → ∃ r, bigDiv 16 32 (-1024) 3 = some r ∧ InRange 32 r) ∧
    ((3 : ℤ) ≠ 0 → ∃ r, numDiv 16 32 (-1024) 3 = some r ∧ InRange 32 r) ∧
    ((3 : ℤ) ≠ 0 → ∃ r, bigMod 32 (-1024) 3 = some r ∧ InRange 32 r) ∧
    ((3 : ℤ) ≠ 0 → ∃ r, numMod 32 (-1024) 3 = some r ∧ InRange 32 r) ∧
    ((0 : ℤ) ≤ -1024 → ∃ r, bigSqrt 16 32 (-1024) = some r ∧ InRange 32 r) ∧
    ((0 : ℤ) ≤ -1024 → ∃ r, numSqrt 16 32 (-1024) = some r ∧ InRange 32 r) ∧
    (0 < bigTWO_PI 16 32 → ∃ r, bigSin [0, 1] 16 32 5 = some r ∧ InRange 32 r) ∧
    (0 < bigTWO_PI 16 32 → ∃ r, bigCos [0, 1] 16 32 5 = some r ∧ InRange 32 r) ∧
    (0 < numTWO_PI 16 32 → ∃ r, numSin [0, 1] 16 32 5 = some r ∧ InRange 32 r) ∧
    (0 < numTWO_PI 16 32 → ∃ r, numCos [0, 1] 16 32 5 = some r ∧ InRange 32 r)) :=
  ⟨by decide, by decide, by decide, by decide, by decide, by decide,
    C4_rangeInvariant 16 32 [0, 1] (-1024) 3 2 5 (-1) 0 25 2 1
      (by decide) (by decide) (by decide) (by decide) (by decide) (by decide)⟩

end FixedPoint
